import Mathlib

/-!
Verification of the wok-range configurator layout, pricing and fit logic.

The embedding translates the layout functions of `BaseUnit.tsx` and the
pricing / fit logic of `WokRangeScene.tsx` into Lean over exact rational
arithmetic.  Lengths are rationals (inches, or scene units after scaling by
`inchToUnit`); burner counts are naturals and, where the source subtracts 1
from a count without a guard, the subtraction is taken in `ℤ` to mirror the
source's signed arithmetic.
-/

/-- One computed burner slot: `x`/`z` center offsets and the well radius,
all in scene units (`BaseUnit.tsx`, type `BurnerSlot`). -/
structure BurnerSlot where
  x : ℚ
  z : ℚ
  radius : ℚ
deriving DecidableEq, Repr

/-- Construction style (`BaseUnit.tsx`, prop `style`). -/
inductive Style where
  | california
  | newyork
deriving DecidableEq, Repr

/-- `SIDE_PADDING_INCH` constant of `WokRangeScene.tsx` (1 inch of padding on
each side). -/
def SIDE_PADDING_INCH : ℚ := 1

/-- `MIN_GAP_INCH` constant of `WokRangeScene.tsx`: the gap the reference UI
always passes to the layout component. -/
def MIN_GAP_INCH : ℚ := 4

/-- `SAFETY` constant of `BaseUnit.tsx`. -/
def SAFETY : ℚ := 0.15

/-- Chassis width in scene units (`BaseUnit.tsx`, the `width` memo):
scaled diameters, plus `max(0, burnerCount - 1)` gaps, plus 1 inch of side
padding on each side, all scaled by `inchToUnit`. -/
def width (burnerCount : ℕ) (burnerSizes : List ℚ) (minGapInch inchToUnit : ℚ) : ℚ :=
  let SIDE_PADDING : ℚ := 1
  let gap := minGapInch * inchToUnit
  let diameters := burnerSizes.map (fun s => s * inchToUnit)
  let totalDiameters := diameters.sum
  let totalGaps := ((max 0 ((burnerCount : ℤ) - 1) : ℤ) : ℚ) * gap
  totalDiameters + totalGaps + SIDE_PADDING * 2 * inchToUnit

/-- Required chassis width in inches (`WokRangeScene.tsx`,
`computeRequiredWidthInch`): same formula as `width` without the scale
multiplications. -/
def computeRequiredWidthInch (sizes : List ℚ) (gapInch : ℚ) : ℚ :=
  let totalDiameters := sizes.sum
  let totalGaps := ((max 0 ((sizes.length : ℤ) - 1) : ℤ) : ℚ) * gapInch
  totalDiameters + totalGaps + SIDE_PADDING_INCH * 2

/-- `usableHalfDepth` of `BaseUnit.tsx`: half the chassis depth minus the
safety margin and the lip height. -/
def usableHalfDepth (depth lipHeight : ℚ) : ℚ :=
  depth / 2 - SAFETY - lipHeight

/-- The `for` loop of the `burnerSlots` memo in `BaseUnit.tsx`, recursing on
the remaining iteration count.  At each step the head of `sizes` is the
current burner's diameter in inches; the cursor advances by half the current
scaled diameter, the scaled gap, and (when another iteration follows, i.e.
the remaining count is positive) half the next scaled diameter. -/
def burnerLoop (gap scale uhd lip : ℚ) : ℕ → List ℚ → ℚ → List BurnerSlot
  | 0, _, _ => []
  | k + 1, sizes, cursor =>
    let d := sizes.headD 0
    let radius := min (d / 2 * scale) uhd
    let nextHalf := if 0 < k then sizes.tail.headD 0 * scale / 2 else 0
    ⟨cursor, -lip * 0.5, radius⟩
      :: burnerLoop gap scale uhd lip k sizes.tail (cursor + d * scale / 2 + gap + nextHalf)

/-- The local `totalWidth` of the `burnerSlots` memo in `BaseUnit.tsx`
(multi-burner branch): scaled diameters plus `(burnerCount - 1)` scaled gaps
plus the two scaled side paddings.  `gap` is already in scene units. -/
def totalWidthScene (burnerCount : ℕ) (burnerSizes : List ℚ) (gap inchToUnit : ℚ) : ℚ :=
  (burnerSizes.map (fun s => s * inchToUnit)).sum
    + (((burnerCount : ℤ) - 1 : ℤ) : ℚ) * gap + 2 * 1 * inchToUnit

/-- The local `leftStart` of the `burnerSlots` memo in `BaseUnit.tsx`: the
leftmost burner's center. -/
def leftStart (burnerCount : ℕ) (burnerSizes : List ℚ) (gap inchToUnit : ℚ) : ℚ :=
  -(totalWidthScene burnerCount burnerSizes gap inchToUnit) / 2
    + 1 * inchToUnit + burnerSizes.headD 0 * inchToUnit / 2

/-- The `burnerSlots` memo of `BaseUnit.tsx`.  A single burner is
special-cased to the origin with unclamped radius; otherwise the slots are
laid out left to right starting at
`-totalWidth/2 + 1 * inchToUnit + diameters[0]/2`. -/
def burnerSlots (burnerCount : ℕ) (burnerSizes : List ℚ)
    (minGapInch inchToUnit usableHalfDepthClamp lipHeight : ℚ) : List BurnerSlot :=
  let gap := minGapInch * inchToUnit
  if burnerCount = 1 then
    [⟨0, 0, burnerSizes.headD 0 / 2 * inchToUnit⟩]
  else
    burnerLoop gap inchToUnit usableHalfDepthClamp lipHeight burnerCount burnerSizes
      (leftStart burnerCount burnerSizes gap inchToUnit)

/-- The `faucetPositions` memo of `BaseUnit.tsx`: `california` maps each slot
to its `x`; `newyork` places one faucet at the midpoint of each adjacent pair
of slots, except a sole slot gets one faucet at its own `x`. -/
def faucetPositions (style : Style) (slots : List BurnerSlot) : List ℚ :=
  match style with
  | .california => slots.map (fun s => s.x)
  | .newyork =>
    if slots.length = 0 then []
    else if slots.length = 1 then [(slots.headD ⟨0, 0, 0⟩).x]
    else (List.range (slots.length - 1)).map
      (fun i => ((slots.getD i ⟨0, 0, 0⟩).x + (slots.getD (i + 1) ⟨0, 0, 0⟩).x) / 2)

/-- `pricePerBurner` of `WokRangeScene.tsx`: a chain of string comparisons
with a defensive `0` fallback. -/
def pricePerBurner (styleType topType : String) : ℚ :=
  if styleType = "new" ∧ topType = "black" then 850
  else if styleType = "new" ∧ topType = "stainless" then 950
  else if styleType = "california" ∧ topType = "black" then 950
  else if styleType = "california" ∧ topType = "stainless" then 1100
  else 0

/-- `singleUnitSurcharge` of `WokRangeScene.tsx`. -/
def singleUnitSurcharge (burnerCount : ℕ) : ℚ :=
  if burnerCount = 1 then 250 else 0

/-- `totalPrice` of `WokRangeScene.tsx`. -/
def totalPrice (styleType topType : String) (burnerCount : ℕ) : ℚ :=
  pricePerBurner styleType topType * burnerCount + singleUnitSurcharge burnerCount

/-- The kitchen-fit warning condition of `WokRangeScene.tsx` (line 132):
the warning banner renders exactly when `requiredWidthInch > kitchenWidthInch`. -/
def kitchenWarningShown (requiredWidthInch kitchenWidthInch : ℚ) : Bool :=
  decide (requiredWidthInch > kitchenWidthInch)

/-- `width` as invoked through the component's props: `minGapInch` and
`inchToUnit` are optional and default to `5` and `0.12` respectively
(`BaseUnit.tsx`, destructuring defaults). -/
def widthWithDefaults (burnerCount : ℕ) (burnerSizes : List ℚ)
    (minGapInch? inchToUnit? : Option ℚ) : ℚ :=
  width burnerCount burnerSizes (minGapInch?.getD 5) (inchToUnit?.getD 0.12)

/-- `burnerSlots` as invoked through the component's props, with the same
optional-prop defaults as `widthWithDefaults`. -/
def burnerSlotsWithDefaults (burnerCount : ℕ) (burnerSizes : List ℚ)
    (minGapInch? inchToUnit? : Option ℚ) (usableHalfDepthClamp lipHeight : ℚ) :
    List BurnerSlot :=
  burnerSlots burnerCount burnerSizes (minGapInch?.getD 5) (inchToUnit?.getD 0.12)
    usableHalfDepthClamp lipHeight

/-- Closed form of the slot the layout loop emits at index `i` when started
at cursor `c` over the full diameter list `sizes`. -/
def slotSpec (gap scale uhd lip : ℚ) (sizes : List ℚ) (c : ℚ) (i : ℕ) : BurnerSlot :=
  ⟨c + (sizes.take i).sum * scale + i * gap
      + (sizes.getD i 0 - sizes.headD 0) * scale / 2,
   -lip * 0.5,
   min (sizes.getD i 0 / 2 * scale) uhd⟩

example : computeRequiredWidthInch [13, 15, 13] 4 = 51 := by
  norm_num [computeRequiredWidthInch, SIDE_PADDING_INCH]
example : computeRequiredWidthInch [] 4 = 2 := by
  norm_num [computeRequiredWidthInch, SIDE_PADDING_INCH]
example :
    burnerSlots 2 [13, 15] 4 1 100 0 =
      [⟨-(19 : ℚ) / 2, 0, 13 / 2⟩, ⟨(17 : ℚ) / 2, 0, 15 / 2⟩] := by
  norm_num [burnerSlots, burnerLoop, leftStart, totalWidthScene]

/-- Sum of a list after multiplying each entry by a constant. -/
theorem sum_map_mul (l : List ℚ) (r : ℚ) : (l.map (fun x => x * r)).sum = l.sum * r := by
  induction l with
  | nil => simp
  | cons a t ih => simp only [List.map_cons, List.sum_cons, ih]; ring

/-- Indexing a mapped range. -/
theorem getD_range_map {α : Type} (f : ℕ → α) (d : α) {n i : ℕ} (h : i < n) :
    ((List.range n).map f).getD i d = f i := by
  rw [List.getD_eq_getElem?_getD]
  simp [List.getElem?_range h]

/-- `getD` with default `0` agrees with indexing inside the list. -/
theorem getD_eq_getElem_q (l : List ℚ) {i : ℕ} (h : i < l.length) :
    l.getD i 0 = l[i] := by
  simp [List.getD_eq_getElem?_getD, List.getElem?_eq_getElem h]

/-- `headD` is `getD` at index 0. -/
theorem headD_eq_getD_zero (l : List ℚ) : l.headD 0 = l.getD 0 0 := by
  cases l <;> rfl

/-- Indexing a map by the `x` projection. -/
theorem getD_map_x (slots : List BurnerSlot) {i : ℕ} (h : i < slots.length) :
    (slots.map (fun s => s.x)).getD i 0 = (slots.getD i ⟨0, 0, 0⟩).x := by
  simp [List.getD_eq_getElem?_getD, List.getElem?_eq_getElem, h]

/-- The layout loop, run for exactly `sizes.length` iterations, produces the
closed-form slots `slotSpec`. -/
theorem burnerLoop_eq_map (gap scale uhd lip : ℚ) :
    ∀ (sizes : List ℚ) (c : ℚ),
      burnerLoop gap scale uhd lip sizes.length sizes c
        = (List.range sizes.length).map (slotSpec gap scale uhd lip sizes c)
  | [], c => by simp [burnerLoop]
  | d :: rest, c => by
    have ih := burnerLoop_eq_map gap scale uhd lip rest
    simp only [List.length_cons, burnerLoop, List.headD_cons, List.tail_cons]
    rw [List.range_succ_eq_map, List.map_cons, List.map_map]
    refine List.cons_eq_cons.mpr ⟨?_, ?_⟩
    · simp only [slotSpec, List.take_zero, List.sum_nil, Nat.cast_zero, List.getD_cons_zero,
        List.headD_cons]
      refine congrArg₂ (fun a r => BurnerSlot.mk a (-lip * 0.5) r) ?_ rfl
      ring
    · rw [ih]
      refine List.map_congr_left fun j hj => ?_
      rw [List.mem_range] at hj
      have hrest : 0 < rest.length := Nat.lt_of_le_of_lt (Nat.zero_le j) hj
      simp only [Function.comp, slotSpec, List.take_succ_cons, List.sum_cons,
        List.getD_cons_succ, List.headD_cons, Nat.cast_succ, if_pos hrest]
      refine congrArg₂ (fun a r => BurnerSlot.mk a (-lip * 0.5) r) ?_ rfl
      ring

/-- The layout loop always emits exactly as many slots as its iteration
count, whatever the diameter list. -/
theorem burnerLoop_length (gap scale uhd lip : ℚ) :
    ∀ (n : ℕ) (sizes : List ℚ) (c : ℚ),
      (burnerLoop gap scale uhd lip n sizes c).length = n
  | 0, _, _ => rfl
  | k + 1, sizes, c => by
    simp [burnerLoop, burnerLoop_length gap scale uhd lip k]

/-- `burnerSlots` always produces exactly `burnerCount` slots. -/
theorem burnerSlots_length (burnerCount : ℕ) (sizes : List ℚ)
    (minGap scale uhd lip : ℚ) :
    (burnerSlots burnerCount sizes minGap scale uhd lip).length = burnerCount := by
  by_cases h : burnerCount = 1
  · simp [burnerSlots, h]
  · simp [burnerSlots, h, burnerLoop_length]

/-- Multi-burner `burnerSlots` in closed form. -/
theorem burnerSlots_eq_map (sizes : List ℚ) (minGap scale uhd lip : ℚ)
    (hn : sizes.length ≠ 1) :
    burnerSlots sizes.length sizes minGap scale uhd lip
      = (List.range sizes.length).map
          (slotSpec (minGap * scale) scale uhd lip sizes
            (leftStart sizes.length sizes (minGap * scale) scale)) := by
  simp only [burnerSlots, if_neg hn]
  exact burnerLoop_eq_map _ _ _ _ sizes _

/-- Indexing multi-burner `burnerSlots`. -/
theorem burnerSlots_getD (sizes : List ℚ) (minGap scale uhd lip : ℚ)
    (hn : sizes.length ≠ 1) {i : ℕ} (hi : i < sizes.length) :
    (burnerSlots sizes.length sizes minGap scale uhd lip).getD i ⟨0, 0, 0⟩
      = slotSpec (minGap * scale) scale uhd lip sizes
          (leftStart sizes.length sizes (minGap * scale) scale) i := by
  rw [burnerSlots_eq_map sizes minGap scale uhd lip hn, getD_range_map _ _ hi]

/-- Table lookups of `pricePerBurner` on the four in-table combinations. -/
theorem pricePerBurner_eval :
    pricePerBurner "new" "black" = 850 ∧ pricePerBurner "new" "stainless" = 950
    ∧ pricePerBurner "california" "black" = 950
    ∧ pricePerBurner "california" "stainless" = 1100 := by
  refine ⟨?_, ?_, ?_, ?_⟩
  · rw [pricePerBurner, if_pos (by decide)]
  · rw [pricePerBurner, if_neg (by decide), if_pos (by decide)]
  · rw [pricePerBurner, if_neg (by decide), if_neg (by decide), if_pos (by decide)]
  · rw [pricePerBurner, if_neg (by decide), if_neg (by decide), if_neg (by decide),
      if_pos (by decide)]

/-- C1: for every diameter sequence, gap and scale, the chassis width in
scene units equals `sum(diameter_i * scale) + max(0, n-1) * (minGap * scale)
+ 2 * 1 * scale`, and the standalone required width in inches is the same
formula without the scale multiplications; an empty diameter list yields
2 inches (and `2 * scale` scene units), not a negative or undefined value. -/
theorem width_matches_spec (sizes : List ℚ) (minGap scale : ℚ) :
    width sizes.length sizes minGap scale
        = sizes.sum * scale
          + ((max 0 ((sizes.length : ℤ) - 1) : ℤ) : ℚ) * (minGap * scale)
          + 2 * 1 * scale
    ∧ computeRequiredWidthInch sizes minGap
        = sizes.sum + ((max 0 ((sizes.length : ℤ) - 1) : ℤ) : ℚ) * minGap + 2 * 1
    ∧ computeRequiredWidthInch [] minGap = 2
    ∧ width 0 [] minGap scale = 2 * scale := by
  refine ⟨?_, ?_, ?_, ?_⟩
  · simp only [width, sum_map_mul]; ring
  · simp only [computeRequiredWidthInch, SIDE_PADDING_INCH]; ring
  · norm_num [computeRequiredWidthInch, SIDE_PADDING_INCH]
  · norm_num [width]

/-- C2: for two or more burners with positive diameters, gap and scale, the
layout has one slot per burner; the first center sits at
`-totalWidth/2 + sidePadding_scene + diameter_0/2` with
`totalWidth = sum(scaled diameters) + (n-1) * gap + 2 * sidePadding_scene`;
every slot has `z = -lipHeight * 0.5` and
`radius = min(diameter_i/2 * scale, usableHalfDepthClamp)`; and each next
center is the previous plus `diameter_i/2 + gap + diameter_{i+1}/2` (scene
units), preserving input order. -/
theorem burnerSlots_layout_spec (sizes : List ℚ) (minGap scale uhd lip : ℚ)
    (hn : 2 ≤ sizes.length) (hpos : ∀ d ∈ sizes, 0 < d)
    (hg : 0 < minGap) (hs : 0 < scale) :
    (burnerSlots sizes.length sizes minGap scale uhd lip).length = sizes.length
    ∧ ((burnerSlots sizes.length sizes minGap scale uhd lip).getD 0 ⟨0, 0, 0⟩).x
        = -((sizes.map (fun d => d * scale)).sum
              + ((sizes.length : ℚ) - 1) * (minGap * scale) + 2 * (1 * scale)) / 2
          + 1 * scale + sizes.getD 0 0 * scale / 2
    ∧ (∀ i < sizes.length,
        ((burnerSlots sizes.length sizes minGap scale uhd lip).getD i ⟨0, 0, 0⟩).z
            = -lip * 0.5
        ∧ ((burnerSlots sizes.length sizes minGap scale uhd lip).getD i ⟨0, 0, 0⟩).radius
            = min (sizes.getD i 0 / 2 * scale) uhd)
    ∧ ∀ i, i + 1 < sizes.length →
        ((burnerSlots sizes.length sizes minGap scale uhd lip).getD (i + 1) ⟨0, 0, 0⟩).x
          = ((burnerSlots sizes.length sizes minGap scale uhd lip).getD i ⟨0, 0, 0⟩).x
            + sizes.getD i 0 * scale / 2 + minGap * scale
            + sizes.getD (i + 1) 0 * scale / 2 := by
  have hne : sizes.length ≠ 1 := by omega
  refine ⟨burnerSlots_length _ _ _ _ _ _, ?_, ?_, ?_⟩
  · rw [burnerSlots_getD sizes minGap scale uhd lip hne (by omega)]
    simp only [slotSpec, leftStart, totalWidthScene, List.take_zero, List.sum_nil,
      Nat.cast_zero, headD_eq_getD_zero]
    push_cast
    ring
  · intro i hi
    rw [burnerSlots_getD sizes minGap scale uhd lip hne hi]
    exact ⟨rfl, rfl⟩
  · intro i hi
    rw [burnerSlots_getD sizes minGap scale uhd lip hne hi,
      burnerSlots_getD sizes minGap scale uhd lip hne (by omega)]
    simp only [slotSpec]
    rw [List.sum_take_succ sizes i (by omega),
      getD_eq_getElem_q sizes (show i < sizes.length by omega)]
    push_cast
    ring

/-- Witness for `burnerSlots_layout_spec` at diameters `[13, 15]`, gap 4,
scale 0.12, clamp 1, lip 0.1. -/
theorem burnerSlots_layout_spec_witness :
    2 ≤ ([13, 15] : List ℚ).length ∧ (∀ d ∈ ([13, 15] : List ℚ), 0 < d)
    ∧ 0 < (4 : ℚ) ∧ 0 < (0.12 : ℚ)
    ∧ ((burnerSlots ([13, 15] : List ℚ).length [13, 15] 4 0.12 1 0.1).length
          = ([13, 15] : List ℚ).length
        ∧ ((burnerSlots ([13, 15] : List ℚ).length [13, 15] 4 0.12 1 0.1).getD 0
              ⟨0, 0, 0⟩).x
            = -((([13, 15] : List ℚ).map (fun d => d * 0.12)).sum
                  + ((([13, 15] : List ℚ).length : ℚ) - 1) * (4 * 0.12)
                  + 2 * (1 * 0.12)) / 2
              + 1 * 0.12 + ([13, 15] : List ℚ).getD 0 0 * 0.12 / 2
        ∧ (∀ i < ([13, 15] : List ℚ).length,
            ((burnerSlots ([13, 15] : List ℚ).length [13, 15] 4 0.12 1 0.1).getD i
                ⟨0, 0, 0⟩).z = -(0.1 : ℚ) * 0.5
            ∧ ((burnerSlots ([13, 15] : List ℚ).length [13, 15] 4 0.12 1 0.1).getD i
                ⟨0, 0, 0⟩).radius
              = min (([13, 15] : List ℚ).getD i 0 / 2 * 0.12) 1)
        ∧ ∀ i, i + 1 < ([13, 15] : List ℚ).length →
            ((burnerSlots ([13, 15] : List ℚ).length [13, 15] 4 0.12 1 0.1).getD (i + 1)
                ⟨0, 0, 0⟩).x
              = ((burnerSlots ([13, 15] : List ℚ).length [13, 15] 4 0.12 1 0.1).getD i
                  ⟨0, 0, 0⟩).x
                + ([13, 15] : List ℚ).getD i 0 * 0.12 / 2 + 4 * 0.12
                + ([13, 15] : List ℚ).getD (i + 1) 0 * 0.12 / 2) :=
  ⟨by norm_num, by norm_num, by norm_num, by norm_num,
   burnerSlots_layout_spec [13, 15] 4 0.12 1 0.1 (by norm_num) (by norm_num)
     (by norm_num) (by norm_num)⟩

/-- C3 counterexample: with a single 21-inch burner at scale 0.12 and the
default depth 2.5 / lip 0.1 (so `usableHalfDepth = 1`), the code's slot
radius is the unclamped `21/2 * 0.12 = 1.26`, not the claimed
`min(diameter/2 * scale, usableHalfDepthClamp) = 1`. -/
theorem single_burner_radius_cex :
    ((burnerSlots 1 [21] 4 0.12 (usableHalfDepth 2.5 0.1) 0.1).getD 0 ⟨0, 0, 0⟩).radius
      ≠ min ((21 : ℚ) / 2 * 0.12) (usableHalfDepth 2.5 0.1) := by
  norm_num [burnerSlots, usableHalfDepth, SAFETY]

/-- C3 (amended): for burner count exactly 1, with any diameter list and any
positive scale, the layout outputs exactly one slot centered at the origin
(`x = 0`, `z = 0`) with the unclamped radius `diameter/2 * scale` (the
single-burner branch does not apply the `usableHalfDepthClamp`). -/
theorem single_burner_slot_spec (sizes : List ℚ) (minGap scale uhd lip : ℚ)
    (hs : 0 < scale) :
    burnerSlots 1 sizes minGap scale uhd lip
      = [⟨0, 0, sizes.headD 0 / 2 * scale⟩] := by
  simp [burnerSlots]

/-- Witness for `single_burner_slot_spec` at diameter 21, scale 0.12. -/
theorem single_burner_slot_spec_witness :
    0 < (0.12 : ℚ)
    ∧ burnerSlots 1 [21] 4 0.12 (usableHalfDepth 2.5 0.1) 0.1
        = [⟨0, 0, (21 : ℚ) / 2 * 0.12⟩] :=
  ⟨by norm_num,
   single_burner_slot_spec [21] 4 0.12 (usableHalfDepth 2.5 0.1) 0.1 (by norm_num)⟩

/-- C4: on any slot list of the layout, `california` yields one faucet per
slot at that slot's `x`; `newyork` yields `max(1, n-1)` faucets, the i-th at
the midpoint of consecutive slot centers for `n ≥ 2`, and a single faucet at
the sole slot's `x` for `n = 1`. -/
theorem faucetPositions_spec (slots : List BurnerSlot) (hn : 1 ≤ slots.length) :
    (faucetPositions Style.california slots).length = slots.length
    ∧ (∀ i < slots.length,
        (faucetPositions Style.california slots).getD i 0 = (slots.getD i ⟨0, 0, 0⟩).x)
    ∧ (faucetPositions Style.newyork slots).length = max 1 (slots.length - 1)
    ∧ (∀ i, i + 1 < slots.length →
        (faucetPositions Style.newyork slots).getD i 0
          = ((slots.getD i ⟨0, 0, 0⟩).x + (slots.getD (i + 1) ⟨0, 0, 0⟩).x) / 2)
    ∧ (slots.length = 1 →
        faucetPositions Style.newyork slots = [(slots.headD ⟨0, 0, 0⟩).x]) := by
  refine ⟨by simp [faucetPositions], ?_, ?_, ?_, ?_⟩
  · intro i hi
    simp only [faucetPositions]
    exact getD_map_x slots hi
  · simp only [faucetPositions]
    by_cases h1 : slots.length = 1
    · simp [h1]
    · rw [if_neg (by omega), if_neg h1]
      simp only [List.length_map, List.length_range]
      omega
  · intro i hi
    simp only [faucetPositions]
    rw [if_neg (by omega), if_neg (by omega), getD_range_map _ _ (by omega)]
  · intro h1
    simp [faucetPositions, h1]

/-- Witness for `faucetPositions_spec` on a two-slot list. -/
theorem faucetPositions_spec_witness :
    1 ≤ ([⟨0, 0, 1⟩, ⟨2, 0, 1⟩] : List BurnerSlot).length
    ∧ ((faucetPositions Style.california [⟨0, 0, 1⟩, ⟨2, 0, 1⟩]).length
          = ([⟨0, 0, 1⟩, ⟨2, 0, 1⟩] : List BurnerSlot).length
        ∧ (∀ i < ([⟨0, 0, 1⟩, ⟨2, 0, 1⟩] : List BurnerSlot).length,
            (faucetPositions Style.california [⟨0, 0, 1⟩, ⟨2, 0, 1⟩]).getD i 0
              = (([⟨0, 0, 1⟩, ⟨2, 0, 1⟩] : List BurnerSlot).getD i ⟨0, 0, 0⟩).x)
        ∧ (faucetPositions Style.newyork [⟨0, 0, 1⟩, ⟨2, 0, 1⟩]).length
            = max 1 (([⟨0, 0, 1⟩, ⟨2, 0, 1⟩] : List BurnerSlot).length - 1)
        ∧ (∀ i, i + 1 < ([⟨0, 0, 1⟩, ⟨2, 0, 1⟩] : List BurnerSlot).length →
            (faucetPositions Style.newyork [⟨0, 0, 1⟩, ⟨2, 0, 1⟩]).getD i 0
              = ((([⟨0, 0, 1⟩, ⟨2, 0, 1⟩] : List BurnerSlot).getD i ⟨0, 0, 0⟩).x
                  + (([⟨0, 0, 1⟩, ⟨2, 0, 1⟩] : List BurnerSlot).getD (i + 1) ⟨0, 0, 0⟩).x)
                / 2)
        ∧ (([⟨0, 0, 1⟩, ⟨2, 0, 1⟩] : List BurnerSlot).length = 1 →
            faucetPositions Style.newyork [⟨0, 0, 1⟩, ⟨2, 0, 1⟩]
              = [(([⟨0, 0, 1⟩, ⟨2, 0, 1⟩] : List BurnerSlot).headD ⟨0, 0, 0⟩).x])) :=
  ⟨by norm_num, faucetPositions_spec [⟨0, 0, 1⟩, ⟨2, 0, 1⟩] (by norm_num)⟩

/-- C5: for 1 to 6 burners with diameters drawn from {13, 15, 17, 19, 21},
positive gap and scale, and the default chassis depth 2.5 and lip 0.1, the
layout produces exactly `burnerCount` slots, every radius is non-negative,
and adjacent centers are at least `minGap*scale` plus the two unclamped
radii (`diameter/2 * scale`) apart, so wells never overlap. -/
theorem burnerSlots_no_overlap (sizes : List ℚ) (minGap scale : ℚ)
    (hn1 : 1 ≤ sizes.length) (hn6 : sizes.length ≤ 6)
    (hmem : ∀ d ∈ sizes, d ∈ ([13, 15, 17, 19, 21] : List ℚ))
    (hg : 0 < minGap) (hs : 0 < scale) :
    (burnerSlots sizes.length sizes minGap scale (usableHalfDepth 2.5 0.1) 0.1).length
        = sizes.length
    ∧ (∀ slot ∈ burnerSlots sizes.length sizes minGap scale (usableHalfDepth 2.5 0.1) 0.1,
        0 ≤ slot.radius)
    ∧ ∀ i, i + 1 < sizes.length →
        ((burnerSlots sizes.length sizes minGap scale (usableHalfDepth 2.5 0.1) 0.1).getD
              (i + 1) ⟨0, 0, 0⟩).x
            - ((burnerSlots sizes.length sizes minGap scale (usableHalfDepth 2.5 0.1)
              0.1).getD i ⟨0, 0, 0⟩).x
          ≥ minGap * scale
            + (sizes.getD i 0 / 2 * scale + sizes.getD (i + 1) 0 / 2 * scale) := by
  have hdpos : ∀ d ∈ sizes, (0 : ℚ) < d := by
    intro d hd
    have h := hmem d hd
    simp only [List.mem_cons, List.not_mem_nil, or_false] at h
    rcases h with h | h | h | h | h <;> rw [h] <;> norm_num
  have huhd : (0 : ℚ) ≤ usableHalfDepth 2.5 0.1 := by
    norm_num [usableHalfDepth, SAFETY]
  refine ⟨burnerSlots_length _ _ _ _ _ _, ?_, ?_⟩
  · intro slot hslot
    by_cases h1 : sizes.length = 1
    · rw [h1] at hslot
      simp only [burnerSlots, if_pos, List.mem_singleton] at hslot
      rw [hslot]
      have hh : sizes.headD 0 ∈ sizes := by
        cases sizes with
        | nil => simp at hn1
        | cons a t => simp
      have := hdpos _ hh
      positivity
    · rw [burnerSlots_eq_map sizes minGap scale (usableHalfDepth 2.5 0.1) 0.1 h1] at hslot
      obtain ⟨i, hi, rfl⟩ := List.mem_map.mp hslot
      rw [List.mem_range] at hi
      have hgd : sizes.getD i 0 ∈ sizes := by
        rw [getD_eq_getElem_q sizes hi]
        exact List.getElem_mem hi
      have := hdpos _ hgd
      refine le_min (by positivity) huhd
  · intro i hi
    have hne : sizes.length ≠ 1 := by omega
    rw [burnerSlots_getD sizes minGap scale (usableHalfDepth 2.5 0.1) 0.1 hne hi,
      burnerSlots_getD sizes minGap scale (usableHalfDepth 2.5 0.1) 0.1 hne (by omega)]
    simp only [slotSpec]
    rw [List.sum_take_succ sizes i (by omega),
      getD_eq_getElem_q sizes (show i < sizes.length by omega)]
    apply ge_of_eq
    push_cast
    ring

/-- Witness for `burnerSlots_no_overlap` at diameters `[13, 15, 13]`, gap 4,
scale 0.12. -/
theorem burnerSlots_no_overlap_witness :
    1 ≤ ([13, 15, 13] : List ℚ).length ∧ ([13, 15, 13] : List ℚ).length ≤ 6
    ∧ (∀ d ∈ ([13, 15, 13] : List ℚ), d ∈ ([13, 15, 17, 19, 21] : List ℚ))
    ∧ 0 < (4 : ℚ) ∧ 0 < (0.12 : ℚ)
    ∧ ((burnerSlots ([13, 15, 13] : List ℚ).length [13, 15, 13] 4 0.12
            (usableHalfDepth 2.5 0.1) 0.1).length = ([13, 15, 13] : List ℚ).length
        ∧ (∀ slot ∈ burnerSlots ([13, 15, 13] : List ℚ).length [13, 15, 13] 4 0.12
              (usableHalfDepth 2.5 0.1) 0.1, 0 ≤ slot.radius)
        ∧ ∀ i, i + 1 < ([13, 15, 13] : List ℚ).length →
            ((burnerSlots ([13, 15, 13] : List ℚ).length [13, 15, 13] 4 0.12
                  (usableHalfDepth 2.5 0.1) 0.1).getD (i + 1) ⟨0, 0, 0⟩).x
              - ((burnerSlots ([13, 15, 13] : List ℚ).length [13, 15, 13] 4 0.12
                  (usableHalfDepth 2.5 0.1) 0.1).getD i ⟨0, 0, 0⟩).x
            ≥ 4 * 0.12
              + (([13, 15, 13] : List ℚ).getD i 0 / 2 * 0.12
                  + ([13, 15, 13] : List ℚ).getD (i + 1) 0 / 2 * 0.12)) :=
  ⟨by norm_num, by norm_num, by norm_num, by norm_num, by norm_num,
   burnerSlots_no_overlap [13, 15, 13] 4 0.12 (by norm_num) (by norm_num) (by norm_num)
     (by norm_num) (by norm_num)⟩

/-- C6: the quoted total is `perBurner * burnerCount` plus a 250 surcharge
exactly at count 1, with per-burner prices 850 / 950 / 950 / 1100 for
(new, black) / (new, stainless) / (california, black) /
(california, stainless); in particular the three concrete quotes 3300, 1100
and 1700. -/
theorem totalPrice_spec (n : ℕ) :
    totalPrice "new" "black" n = 850 * n + (if n = 1 then 250 else 0)
    ∧ totalPrice "new" "stainless" n = 950 * n + (if n = 1 then 250 else 0)
    ∧ totalPrice "california" "black" n = 950 * n + (if n = 1 then 250 else 0)
    ∧ totalPrice "california" "stainless" n = 1100 * n + (if n = 1 then 250 else 0)
    ∧ totalPrice "california" "stainless" 3 = 3300
    ∧ totalPrice "new" "black" 1 = 1100
    ∧ totalPrice "new" "black" 2 = 1700 := by
  obtain ⟨h1, h2, h3, h4⟩ := pricePerBurner_eval
  refine ⟨?_, ?_, ?_, ?_, ?_, ?_, ?_⟩
  · simp only [totalPrice, h1, singleUnitSurcharge]
  · simp only [totalPrice, h2, singleUnitSurcharge]
  · simp only [totalPrice, h3, singleUnitSurcharge]
  · simp only [totalPrice, h4, singleUnitSurcharge]
  · simp only [totalPrice, h4, singleUnitSurcharge]; norm_num
  · simp only [totalPrice, h1, singleUnitSurcharge]; norm_num
  · simp only [totalPrice, h1, singleUnitSurcharge]; norm_num

/-- C7 counterexample: for diameters `[13, 15, 13]` with gap 4 the required
width is 51 inches, not the 49 inches the claim computes
(`13 + 15 + 13 + 2*4 + 2 = 51`). -/
theorem required_width_cex : computeRequiredWidthInch [13, 15, 13] 4 ≠ 49 := by
  norm_num [computeRequiredWidthInch, SIDE_PADDING_INCH]

/-- C7 (amended): the fit check succeeds exactly when
`requiredWidthInches <= availableWidthInches` and the kitchen-width warning
is shown exactly when it fails; for diameters `[13, 15, 13]` with gap 4 the
required width is `13+15+13 + 2*4 + 2 = 51` inches, so with an available
width of 48 the check reports exceeded. -/
theorem fit_check_spec (r a : ℚ) :
    (kitchenWarningShown r a = true ↔ ¬ (r ≤ a))
    ∧ computeRequiredWidthInch [13, 15, 13] 4 = 51
    ∧ kitchenWarningShown (computeRequiredWidthInch [13, 15, 13] 4) 48 = true := by
  refine ⟨?_, ?_, ?_⟩
  · simp only [kitchenWarningShown, gt_iff_lt, decide_eq_true_eq]
    exact lt_iff_not_le
  · norm_num [computeRequiredWidthInch, SIDE_PADDING_INCH]
  · simp only [kitchenWarningShown, gt_iff_lt, decide_eq_true_eq]
    norm_num [computeRequiredWidthInch, SIDE_PADDING_INCH]

/-- C8: any (style, top) pair outside the four tabulated combinations gets a
per-burner price of 0, so the total is just the single-unit surcharge; the
pricing function is total and raises nothing. -/
theorem pricePerBurner_out_of_table (s t : String)
    (h : (s, t) ∉ ([("new", "black"), ("new", "stainless"),
        ("california", "black"), ("california", "stainless")] :
          List (String × String))) :
    pricePerBurner s t = 0 ∧ ∀ n : ℕ, totalPrice s t n = singleUnitSurcharge n := by
  simp only [List.mem_cons, List.not_mem_nil, or_false, not_or, Prod.mk.injEq,
    not_and] at h
  obtain ⟨h1, h2, h3, h4⟩ := h
  have hp : pricePerBurner s t = 0 := by
    rw [pricePerBurner, if_neg fun hc => h1 hc.1 hc.2, if_neg fun hc => h2 hc.1 hc.2,
      if_neg fun hc => h3 hc.1 hc.2, if_neg fun hc => h4 hc.1 hc.2]
  exact ⟨hp, fun n => by rw [totalPrice, hp, zero_mul, zero_add]⟩

/-- Witness for `pricePerBurner_out_of_table` at the out-of-table pair
("wood", "black"). -/
theorem pricePerBurner_out_of_table_witness :
    (("wood", "black") ∉ ([("new", "black"), ("new", "stainless"),
        ("california", "black"), ("california", "stainless")] :
          List (String × String)))
    ∧ (pricePerBurner "wood" "black" = 0
        ∧ ∀ n : ℕ, totalPrice "wood" "black" n = singleUnitSurcharge n) :=
  ⟨by decide, pricePerBurner_out_of_table "wood" "black" (by decide)⟩

/-- C9: for two or more burners with positive diameters, gap and scale,
every well stays laterally inside the chassis with the full 1-inch side
padding intact on both sides, where the chassis width is the `width`
formula; and the `totalWidth` used for placement coincides with that
chassis width. -/
theorem burnerSlots_within_chassis (sizes : List ℚ) (minGap scale uhd lip : ℚ)
    (hn : 2 ≤ sizes.length) (hpos : ∀ d ∈ sizes, 0 < d)
    (hg : 0 < minGap) (hs : 0 < scale) :
    (∀ i < sizes.length,
        -(width sizes.length sizes minGap scale) / 2 + 1 * scale
            ≤ ((burnerSlots sizes.length sizes minGap scale uhd lip).getD i ⟨0, 0, 0⟩).x
              - sizes.getD i 0 / 2 * scale
        ∧ ((burnerSlots sizes.length sizes minGap scale uhd lip).getD i ⟨0, 0, 0⟩).x
              + sizes.getD i 0 / 2 * scale
            ≤ width sizes.length sizes minGap scale / 2 - 1 * scale)
    ∧ totalWidthScene sizes.length sizes (minGap * scale) scale
        = width sizes.length sizes minGap scale := by
  have hne : sizes.length ≠ 1 := by omega
  have hmax : (max 0 ((sizes.length : ℤ) - 1)) = (sizes.length : ℤ) - 1 := by omega
  have hW : totalWidthScene sizes.length sizes (minGap * scale) scale
      = width sizes.length sizes minGap scale := by
    simp only [totalWidthScene, width, hmax]
    ring
  refine ⟨?_, hW⟩
  intro i hi
  rw [burnerSlots_getD sizes minGap scale uhd lip hne hi]
  have hgap : (0 : ℚ) < minGap * scale := mul_pos hg hs
  have htake : (0 : ℚ) ≤ (sizes.take i).sum := by
    apply List.sum_nonneg
    intro x hx
    exact (hpos x (List.mem_of_mem_take hx)).le
  have htakei : (sizes.take (i + 1)).sum ≤ sizes.sum := by
    have hdrop : (0 : ℚ) ≤ (sizes.drop (i + 1)).sum := by
      apply List.sum_nonneg
      intro x hx
      exact (hpos x (List.mem_of_mem_drop hx)).le
    have := List.sum_take_add_sum_drop sizes (i + 1)
    linarith
  have hsucc : (sizes.take (i + 1)).sum = (sizes.take i).sum + sizes.getD i 0 := by
    rw [List.sum_take_succ sizes i hi, getD_eq_getElem_q sizes hi]
  have hicast : (i : ℚ) ≤ (sizes.length : ℚ) - 1 := by
    have : (i : ℚ) + 1 ≤ (sizes.length : ℚ) := by exact_mod_cast hi
    linarith
  rw [← hW]
  simp only [slotSpec, leftStart, totalWidthScene, sum_map_mul, headD_eq_getD_zero]
  constructor
  · have h1 : 0 ≤ (sizes.take i).sum * scale := mul_nonneg htake hs.le
    have h2 : 0 ≤ (i : ℚ) * (minGap * scale) := mul_nonneg (Nat.cast_nonneg i) hgap.le
    push_cast
    nlinarith [h1, h2]
  · have h3 : (sizes.take (i + 1)).sum * scale ≤ sizes.sum * scale :=
      mul_le_mul_of_nonneg_right htakei hs.le
    have h4 : (i : ℚ) * (minGap * scale) ≤ ((sizes.length : ℚ) - 1) * (minGap * scale) :=
      mul_le_mul_of_nonneg_right hicast hgap.le
    push_cast
    nlinarith [h3, h4, hsucc]

/-- Witness for `burnerSlots_within_chassis` at diameters `[13, 15]`, gap 4,
scale 0.12, clamp 1, lip 0.1. -/
theorem burnerSlots_within_chassis_witness :
    2 ≤ ([13, 15] : List ℚ).length ∧ (∀ d ∈ ([13, 15] : List ℚ), 0 < d)
    ∧ 0 < (4 : ℚ) ∧ 0 < (0.12 : ℚ)
    ∧ ((∀ i < ([13, 15] : List ℚ).length,
          -(width ([13, 15] : List ℚ).length [13, 15] 4 0.12) / 2 + 1 * 0.12
              ≤ ((burnerSlots ([13, 15] : List ℚ).length [13, 15] 4 0.12 1 0.1).getD i
                  ⟨0, 0, 0⟩).x - ([13, 15] : List ℚ).getD i 0 / 2 * 0.12
          ∧ ((burnerSlots ([13, 15] : List ℚ).length [13, 15] 4 0.12 1 0.1).getD i
                ⟨0, 0, 0⟩).x + ([13, 15] : List ℚ).getD i 0 / 2 * 0.12
              ≤ width ([13, 15] : List ℚ).length [13, 15] 4 0.12 / 2 - 1 * 0.12)
        ∧ totalWidthScene ([13, 15] : List ℚ).length [13, 15] (4 * 0.12) 0.12
            = width ([13, 15] : List ℚ).length [13, 15] 4 0.12) :=
  ⟨by norm_num, by norm_num, by norm_num, by norm_num,
   burnerSlots_within_chassis [13, 15] 4 0.12 1 0.1 (by norm_num) (by norm_num)
     (by norm_num) (by norm_num)⟩

/-- C10: invoked without an explicit `minGapInch` prop, the layout component
computes width and placement with a default gap of 5 inches (and default
scale 0.12 units per inch when `inchToUnit` is also omitted) — not the
4-inch `MIN_GAP_INCH` the reference UI always passes; the defaulted call
equals a call with `minGapInch = 5`. -/
theorem default_gap_scale_spec (burnerCount : ℕ) (sizes : List ℚ)
    (inchToUnit? : Option ℚ) (uhd lip : ℚ) :
    widthWithDefaults burnerCount sizes none inchToUnit?
        = width burnerCount sizes 5 (inchToUnit?.getD 0.12)
    ∧ burnerSlotsWithDefaults burnerCount sizes none inchToUnit? uhd lip
        = burnerSlots burnerCount sizes 5 (inchToUnit?.getD 0.12) uhd lip
    ∧ widthWithDefaults burnerCount sizes none none = width burnerCount sizes 5 0.12
    ∧ burnerSlotsWithDefaults burnerCount sizes none none uhd lip
        = burnerSlots burnerCount sizes 5 0.12 uhd lip
    ∧ MIN_GAP_INCH = 4 ∧ (5 : ℚ) ≠ MIN_GAP_INCH := by
  refine ⟨rfl, rfl, rfl, rfl, rfl, by norm_num [MIN_GAP_INCH]⟩
